import Mathlib

set_option maxRecDepth 100000

/-!
Shallow embedding of the compositing core of `src/src/lib/wasm/src/lib.rs`
(an image-compositing WASM module): the per-pixel source-over blend operator
`blend_pixels` (IEEE-754 single-precision arithmetic modelled exactly over
scaled integers), the bounds-clipped per-layer compositing loop, and the
three entry points `composite_images`, `composite_multiple_layers`,
`generate_preview`, with the external collaborators (image codec, base64
engine, resampler) taken as parameters.
-/

/-! ## Exact model of IEEE-754 single-precision (f32) arithmetic

Every f32 value occurring in `blend_pixels` on well-formed (8-bit) pixels is
a nonnegative normal number: magnitudes range from `0` and about `2^-26`
(products of small alpha ratios) up to `65025 = 255 * 255`, far from both
the subnormal threshold `2^-126` and the overflow threshold.  Every such
value is an integer multiple of `2^-64` (its significand has 24 bits and its
exponent is at least `-41`), so we represent the f32 value `v` exactly by
the natural number `v * 2^64`, and each arithmetic operation is "form the
exact rational result, round its value to 24 significand bits, round to
nearest, ties to even" — which is exactly what an IEEE f32 operation does in
this range. -/

/-- Fuelled binary logarithm: `log2fuel f n = ⌊log₂ n⌋` for `1 ≤ n < 2^f`
(and `0` for `n = 0`).  Structural recursion on the fuel keeps it
kernel-reducible. -/
def log2fuel : ℕ → ℕ → ℕ
  | 0, _ => 0
  | f + 1, n => if n ≤ 1 then 0 else log2fuel f (n / 2) + 1

/-- Floor of the binary logarithm, `⌊log₂ n⌋`, for the magnitudes occurring in this development
(`n < 2^512`). -/
def natLog2 (n : ℕ) : ℕ := log2fuel 512 n

/-- Round the ratio `a / b` (with `b ≠ 0`) to the nearest natural number,
ties to even. -/
def rneDiv (a b : ℕ) : ℕ :=
  let q := a / b
  let r := a % b
  if 2 * r < b then q
  else if b < 2 * r then q + 1
  else if q % 2 = 0 then q else q + 1

/-- Floor of the binary logarithm, `⌊log₂ (a / b)⌋`, for naturals `a, b ≥ 1`. -/
def floorLog2Q (a b : ℕ) : ℤ :=
  let d : ℤ := (natLog2 a : ℤ) - (natLog2 b : ℤ)
  -- `2^d ≤ a/b` decides whether the floor log is `d` or `d - 1`.
  if (if 0 ≤ d then b * 2 ^ d.toNat ≤ a else b ≤ a * 2 ^ (-d).toNat) then d
  else d - 1

/-- Round the nonnegative rational `a / b` (with `b ≠ 0`) to the nearest
binary floating-point number with a 24-bit significand (IEEE single
precision, round to nearest, ties to even), returned scaled by `2^64`.
Exponent-range limits are ignored, which the value range of this program
never exercises: every value is either `0` or normal with exponent in
`[-41, 127]`. -/
def roundF32 (a b : ℕ) : ℕ :=
  if a = 0 then 0
  else
    let e := floorLog2Q a b
    let t : ℤ := 23 - e
    -- significand `m = rne(a/b * 2^t) ∈ [2^23, 2^24]`
    let m := if 0 ≤ t then rneDiv (a * 2 ^ t.toNat) b
             else rneDiv a (b * 2 ^ (-t).toNat)
    -- the float is `m * 2^(e-23)`; scaled by `2^64` that is `m * 2^(e+41)`
    if 0 ≤ e + 41 then m * 2 ^ (e + 41).toNat else 0

/-- The f32 value of the natural number `n` (exact for `n < 2^24`), scaled
by `2^64`. -/
def toF32 (n : ℕ) : ℕ := n * 2 ^ 64

/-- f32 addition on scaled values: the exact sum `(x + y) / 2^64`, rounded. -/
def fadd (x y : ℕ) : ℕ := roundF32 (x + y) (2 ^ 64)

/-- f32 subtraction on scaled values (used only where `y ≤ x`, namely
`1.0 - overlay_alpha` with an 8-bit alpha). -/
def fsub (x y : ℕ) : ℕ := roundF32 (x - y) (2 ^ 64)

/-- f32 multiplication on scaled values: the exact product is
`(x * y) / 2^128`, rounded. -/
def fmul (x y : ℕ) : ℕ := roundF32 (x * y) (2 ^ 128)

/-- f32 division on scaled values: the exact quotient is `x / y` (the
scales cancel), rounded. -/
def fdiv (x y : ℕ) : ℕ := roundF32 x y

/-- Rust's saturating `as u8` cast on a (nonnegative) float: truncate
toward zero, clamp to `255`. -/
def u8cast (v : ℕ) : ℕ := min 255 (v / 2 ^ 64)

/-! ## Pixels and the blend operator -/

/-- An RGBA pixel, one natural number per 8-bit channel (`Rgba<u8>` in the
source; a pixel is well formed when every channel is `≤ 255`). -/
structure Rgba where
  r : ℕ
  g : ℕ
  b : ℕ
  a : ℕ
deriving DecidableEq, Repr

/-- All four channels fit in 8 bits. -/
def Rgba.Valid (p : Rgba) : Prop :=
  p.r ≤ 255 ∧ p.g ≤ 255 ∧ p.b ≤ 255 ∧ p.a ≤ 255

instance (p : Rgba) : Decidable p.Valid := by
  unfold Rgba.Valid; infer_instance

/-- The blend operator `blend_pixels` from the source, every f32 operation modelled exactly:

    let base_alpha = base[3] as f32 / 255.0;
    let overlay_alpha = overlay[3] as f32 / 255.0;
    let result_alpha = overlay_alpha + base_alpha * (1.0 - overlay_alpha);
    if result_alpha == 0.0 { return Rgba([0, 0, 0, 0]); }
    let r = ((overlay[0] as f32 * overlay_alpha
              + base[0] as f32 * base_alpha * (1.0 - overlay_alpha))
             / result_alpha) as u8;   // similarly g, b
    let a = (result_alpha * 255.0) as u8;
-/
def blend_pixels (base overlay : Rgba) : Rgba :=
  let base_alpha := fdiv (toF32 base.a) (toF32 255)
  let overlay_alpha := fdiv (toF32 overlay.a) (toF32 255)
  let result_alpha := fadd overlay_alpha (fmul base_alpha (fsub (toF32 1) overlay_alpha))
  if result_alpha = 0 then ⟨0, 0, 0, 0⟩
  else
    let ch : ℕ → ℕ → ℕ := fun o b =>
      u8cast (fdiv (fadd (fmul (toF32 o) overlay_alpha)
                         (fmul (fmul (toF32 b) base_alpha) (fsub (toF32 1) overlay_alpha)))
                   result_alpha)
    ⟨ch overlay.r base.r, ch overlay.g base.g, ch overlay.b base.b,
     u8cast (fmul result_alpha (toF32 255))⟩

/-! ## Pixel grids and the bounds-clipped compositing loop -/

/-- A pixel grid (`ImageBuffer<Rgba<u8>, _>` in the source): row-major
pixels, index `y * width + x`. -/
structure Grid where
  width : ℕ
  height : ℕ
  pixels : List Rgba
deriving DecidableEq, Repr

/-- Reading a pixel, `get_pixel x y` (row-major flat index, transparent black fallback for
out-of-range reads, which the source never performs). -/
def Grid.get (g : Grid) (x y : ℕ) : Rgba := g.pixels.getD (y * g.width + x) ⟨0, 0, 0, 0⟩

/-- Writing a pixel, `put_pixel x y p`. -/
def Grid.set (g : Grid) (x y : ℕ) (p : Rgba) : Grid :=
  ⟨g.width, g.height, g.pixels.set (y * g.width + x) p⟩

/-- The coordinate sequence of `enumerate_pixels()`: row by row, `x`
fastest. -/
def enumCoords (w h : ℕ) : List (ℕ × ℕ) :=
  (List.range h).flatMap (fun y => (List.range w).map (fun x => (x, y)))

/-- One iteration of the compositing loop:

    if x < result_img.width() && y < result_img.height() {
        let base_pixel = result_img.get_pixel(x, y);
        let composited_pixel = blend_pixels(*base_pixel, *overlay_pixel);
        result_img.put_pixel(x, y, composited_pixel);
    }
-/
def blendStep (overlay : Grid) (img : Grid) (xy : ℕ × ℕ) : Grid :=
  if xy.1 < img.width ∧ xy.2 < img.height then
    img.set xy.1 xy.2 (blend_pixels (img.get xy.1 xy.2) (overlay.get xy.1 xy.2))
  else img

/-- The per-layer compositing loop shared by all three entry points:
iterate over the overlay's pixels, blending only coordinates that are also
inside the (mutable) base grid. -/
def compositeLayer (base overlay : Grid) : Grid :=
  (enumCoords overlay.width overlay.height).foldl (blendStep overlay) base

/-! ## External collaborators and the entry points

The image codec, the base64 engine and the resampler are external
libraries (`image`, `base64`); the pipelines are parametric in them.  A
decoder reports its own error message, which the source wraps into a
formatted string. -/

structure Externs where
  decodeImage : List ℕ → Except String Grid
  base64Decode : String → Except String (List ℕ)
  base64Encode : List ℕ → String
  encodePng : Grid → Except String (List ℕ)
  resize : Grid → ℕ → ℕ → Grid

/-- The data-URL test `layer_base64.starts_with("data:image")`. -/
def isDataUrl (s : String) : Bool := "data:image".data.isPrefixOf s.data

/-- Rust's `split(",")` on the character list: every comma separates two
(possibly empty) pieces. -/
def splitCommaAux : List Char → List Char → List (List Char)
  | [], acc => [acc.reverse]
  | c :: cs, acc =>
    if c = ',' then acc.reverse :: splitCommaAux cs [] else splitCommaAux cs (c :: acc)

/-- The split `layer_base64.split(",")`. -/
def splitComma (s : String) : List String := (splitCommaAux s.data []).map String.mk

/-- The data-URL unwrapping of `composite_multiple_layers`:

    let base64_content = if layer_base64.starts_with("data:image") {
        layer_base64.split(",").nth(1)
            .ok_or_else(|| JsValue::from_str("Invalid data URL format"))?
    } else {
        &layer_base64
    };
-/
def extractBase64Content (s : String) : Except String String :=
  if isDataUrl s then
    match (splitComma s)[1]? with
    | some payload => .ok payload
    | none => .error "Invalid data URL format"
  else .ok s

/-- Processing of one element of `layers_data`: require a string, unwrap a
data URL, base64-decode, decode the image, then run the compositing loop on
the accumulated result grid. -/
def processLayer (ext : Externs) (img : Grid) (layer : Option String) : Except String Grid :=
  match layer with
  | none => .error "Layer data must be a string"
  | some s => do
    let content ← extractBase64Content s
    let bytes ← (ext.base64Decode content).mapError
      (fun e => "Failed to decode base64: " ++ e)
    let overlay ← (ext.decodeImage bytes).mapError
      (fun e => "Failed to decode overlay image: " ++ e)
    .ok (compositeLayer img overlay)

/-- PNG-encode the result grid and wrap it as a data URL (the common tail
of all three entry points). -/
def encodeAndWrap (ext : Externs) (img : Grid) : Except String String := do
  let png ← (ext.encodePng img).mapError
    (fun e => "Failed to encode result image: " ++ e)
  .ok ("data:image/png;base64," ++ ext.base64Encode png)

/-- The body of `composite_multiple_layers` up to (but not including) the
PNG re-encoding: decode the base, then fold the layer processor over the layer
values in order. -/
def compositeMultipleLayersGrid (ext : Externs) (baseBytes : List ℕ)
    (layers : List (Option String)) : Except String Grid := do
  let base ← (ext.decodeImage baseBytes).mapError
    (fun e => "Failed to decode base image: " ++ e)
  layers.foldlM (processLayer ext) base

/-- Entry point `composite_multiple_layers`. -/
def composite_multiple_layers (ext : Externs) (baseBytes : List ℕ)
    (layers : List (Option String)) : Except String String := do
  let result ← compositeMultipleLayersGrid ext baseBytes layers
  encodeAndWrap ext result

/-- Entry point `composite_images`. -/
def composite_images (ext : Externs) (baseBytes overlayBytes : List ℕ) :
    Except String String := do
  let base ← (ext.decodeImage baseBytes).mapError
    (fun e => "Failed to decode base image: " ++ e)
  let overlay ← (ext.decodeImage overlayBytes).mapError
    (fun e => "Failed to decode overlay image: " ++ e)
  encodeAndWrap ext (compositeLayer base overlay)

/-- The body of `generate_preview` up to (but not including) the PNG
re-encoding:
decode base and overlay, resample each to the target dimensions exactly
when its decoded dimensions differ from the target, then run the
compositing loop once. -/
def generatePreviewGrid (ext : Externs) (baseBytes overlayBytes : List ℕ)
    (width height : ℕ) : Except String Grid := do
  let base0 ← (ext.decodeImage baseBytes).mapError
    (fun e => "Failed to decode base image: " ++ e)
  let base := if base0.width ≠ width ∨ base0.height ≠ height
    then ext.resize base0 width height else base0
  let overlay0 ← (ext.decodeImage overlayBytes).mapError
    (fun e => "Failed to decode overlay image: " ++ e)
  let overlay := if overlay0.width ≠ width ∨ overlay0.height ≠ height
    then ext.resize overlay0 width height else overlay0
  .ok (compositeLayer base overlay)

/-- Entry point `generate_preview`. -/
def generate_preview (ext : Externs) (baseBytes overlayBytes : List ℕ)
    (width height : ℕ) : Except String String := do
  let result ← generatePreviewGrid ext baseBytes overlayBytes width height
  encodeAndWrap ext result

/-! ## Specification-side definitions

These follow the specification's words (not the source), for comparison
with the embedded source functions. -/

/-- The blend algorithm exactly as the specification states it, in exact
real (rational) arithmetic with rounding of the final channel values:
`a_o = O.a/255`, `a_b = B.a/255`, `a_r = a_o + a_b*(1-a_o)`; if `a_r = 0`
the result is transparent black, otherwise each color channel is
`round((O.c*a_o + B.c*a_b*(1-a_o)) / a_r)` and the alpha channel is
`round(a_r * 255)`. -/
def blendSpecRound (B O : Rgba) : Rgba :=
  let a_o : ℚ := (O.a : ℚ) / 255
  let a_b : ℚ := (B.a : ℚ) / 255
  let a_r : ℚ := a_o + a_b * (1 - a_o)
  if a_r = 0 then ⟨0, 0, 0, 0⟩
  else
    ⟨(round (((O.r : ℚ) * a_o + (B.r : ℚ) * a_b * (1 - a_o)) / a_r)).toNat,
     (round (((O.g : ℚ) * a_o + (B.g : ℚ) * a_b * (1 - a_o)) / a_r)).toNat,
     (round (((O.b : ℚ) * a_o + (B.b : ℚ) * a_b * (1 - a_o)) / a_r)).toNat,
     (round (a_r * 255)).toNat⟩

/-- The blend algorithm as the amended claim states it: the same
source-over formula, but every arithmetic operation performed in IEEE-754
single precision (24-bit significand, round to nearest, ties to even) and
the final channel values truncated toward zero by a saturating 8-bit cast
instead of rounded. -/
def blendSpecSingleTrunc (B O : Rgba) : Rgba :=
  let a_o := fdiv (toF32 O.a) (toF32 255)
  let a_b := fdiv (toF32 B.a) (toF32 255)
  let a_r := fadd a_o (fmul a_b (fsub (toF32 1) a_o))
  if a_r = 0 then ⟨0, 0, 0, 0⟩
  else
    ⟨u8cast (fdiv (fadd (fmul (toF32 O.r) a_o)
                        (fmul (fmul (toF32 B.r) a_b) (fsub (toF32 1) a_o))) a_r),
     u8cast (fdiv (fadd (fmul (toF32 O.g) a_o)
                        (fmul (fmul (toF32 B.g) a_b) (fsub (toF32 1) a_o))) a_r),
     u8cast (fdiv (fadd (fmul (toF32 O.b) a_o)
                        (fmul (fmul (toF32 B.b) a_b) (fsub (toF32 1) a_o))) a_r),
     u8cast (fmul a_r (toF32 255))⟩

/-- The text after the first comma of a string (the claim's description of
the payload extracted from a data URL). -/
def afterFirstComma (s : String) : String :=
  String.mk ((s.data.dropWhile (fun c => c ≠ ',')).drop 1)

/-! ## Concrete external collaborators for witnesses

A toy codec/transport implementation used to instantiate the parametric
pipelines on concrete inputs: an image is the byte sequence
`width :: height :: r₁ :: g₁ :: b₁ :: a₁ :: …`, the base64 engine maps
every character to its code point and rejects strings containing `!`. -/

def bytesToPixels : List ℕ → List Rgba
  | r :: g :: b :: a :: rest => ⟨r, g, b, a⟩ :: bytesToPixels rest
  | _ => []

def toyDecodeImage (bytes : List ℕ) : Except String Grid :=
  match bytes with
  | w :: h :: rest =>
    if rest.length = 4 * w * h then .ok ⟨w, h, bytesToPixels rest⟩
    else .error "corrupt image"
  | _ => .error "corrupt image"

def toyBase64Decode (s : String) : Except String (List ℕ) :=
  if s.data.contains '!' then .error "invalid symbol"
  else .ok (s.data.map Char.toNat)

def toyExterns : Externs where
  decodeImage := toyDecodeImage
  base64Decode := toyBase64Decode
  base64Encode := fun bytes => String.mk (bytes.map Char.ofNat)
  encodePng := fun img =>
    .ok (img.width :: img.height ::
         img.pixels.flatMap (fun p => [p.r, p.g, p.b, p.a]))
  resize := fun g w h => ⟨w, h, List.replicate (w * h) (g.get 0 0)⟩

/-- A layer string decoding (through `toyExterns`) to a 1×1 half-opaque red
overlay. -/
def layerRed : String :=
  String.mk [Char.ofNat 1, Char.ofNat 1, Char.ofNat 255, Char.ofNat 0,
             Char.ofNat 0, Char.ofNat 128]

/-- A layer string decoding (through `toyExterns`) to a 1×1 half-opaque
blue overlay. -/
def layerBlue : String :=
  String.mk [Char.ofNat 1, Char.ofNat 1, Char.ofNat 0, Char.ofNat 0,
             Char.ofNat 255, Char.ofNat 128]

/-- The resize policy of `generate_preview`, as the claim states it:
resample exactly when the decoded dimensions differ from the target. -/
def resizeIfNeeded (ext : Externs) (g : Grid) (w h : ℕ) : Grid :=
  if g.width ≠ w ∨ g.height ≠ h then ext.resize g w h else g

/-- A layer string rejected by the toy base64 engine. -/
def badLayer : String := "!"

/-- A data URL whose base64 payload itself contains a comma. -/
def dataUrlTwoCommas : String := "data:image/png;base64,QUJD,RUZH"

/-! ## Arithmetic helper lemmas -/

lemma roundF32_zero (b : ℕ) : roundF32 0 b = 0 := by simp [roundF32]

lemma fmul_zero (x : ℕ) : fmul x 0 = 0 := by simp [fmul, roundF32]

lemma roundF32_toF32 : ∀ i : Fin 256, roundF32 (toF32 i.val) (2 ^ 64) = toF32 i.val := by
  decide

lemma roundF32_mul_one :
    ∀ i : Fin 256, roundF32 (toF32 i.val * toF32 1) (2 ^ 128) = toF32 i.val := by
  decide

lemma fmul_toF32_one {n : ℕ} (h : n ≤ 255) : fmul (toF32 n) (toF32 1) = toF32 n := by
  have h2 := roundF32_mul_one ⟨n, by omega⟩
  simpa [fmul] using h2

lemma fadd_toF32_zero {n : ℕ} (h : n ≤ 255) : fadd (toF32 n) 0 = toF32 n := by
  have h2 := roundF32_toF32 ⟨n, by omega⟩
  simpa [fadd] using h2

lemma fadd_zero_toF32 {n : ℕ} (h : n ≤ 255) : fadd 0 (toF32 n) = toF32 n := by
  have h2 := roundF32_toF32 ⟨n, by omega⟩
  simpa [fadd] using h2

lemma fdiv_toF32_one {n : ℕ} (h : n ≤ 255) : fdiv (toF32 n) (toF32 1) = toF32 n := by
  have h2 := roundF32_toF32 ⟨n, by omega⟩
  simpa [fdiv, toF32] using h2

lemma u8cast_toF32 {n : ℕ} (h : n ≤ 255) : u8cast (toF32 n) = n := by
  unfold u8cast toF32
  rw [Nat.mul_div_cancel _ (by norm_num : 0 < 2 ^ 64)]
  omega

/-! ## Grid helper lemmas -/

lemma flatIndex_ne {w x1 y1 x2 y2 : ℕ} (h1 : x1 < w) (h2 : x2 < w)
    (hne : ¬(x1 = x2 ∧ y1 = y2)) : y1 * w + x1 ≠ y2 * w + x2 := by
  rcases Nat.lt_trichotomy y1 y2 with h | h | h
  · have e1 : (y1 + 1) * w = y1 * w + w := by ring
    have e2 : (y1 + 1) * w ≤ y2 * w := Nat.mul_le_mul_right w (Nat.succ_le_of_lt h)
    omega
  · subst h; omega
  · have e1 : (y2 + 1) * w = y2 * w + w := by ring
    have e2 : (y2 + 1) * w ≤ y1 * w := Nat.mul_le_mul_right w (Nat.succ_le_of_lt h)
    omega

lemma Grid.get_set_ne (g : Grid) {x y x' y' : ℕ} (p : Rgba)
    (h : y' * g.width + x' ≠ y * g.width + x) :
    (g.set x' y' p).get x y = g.get x y := by
  unfold Grid.get Grid.set
  simp only
  rw [List.getD_eq_getElem?_getD, List.getD_eq_getElem?_getD,
    List.getElem?_set_ne h]

lemma blendStep_width (ov img : Grid) (xy : ℕ × ℕ) :
    (blendStep ov img xy).width = img.width := by
  unfold blendStep; split <;> rfl

lemma blendStep_height (ov img : Grid) (xy : ℕ × ℕ) :
    (blendStep ov img xy).height = img.height := by
  unfold blendStep; split <;> rfl

lemma foldl_blendStep_dims (ov : Grid) :
    ∀ (coords : List (ℕ × ℕ)) (img : Grid),
      (coords.foldl (blendStep ov) img).width = img.width ∧
      (coords.foldl (blendStep ov) img).height = img.height
  | [], img => ⟨rfl, rfl⟩
  | p :: rest, img => by
    rw [List.foldl_cons]
    have ih := foldl_blendStep_dims ov rest (blendStep ov img p)
    rw [ih.1, ih.2, blendStep_width, blendStep_height]
    exact ⟨rfl, rfl⟩

lemma foldl_blendStep_get_untouched (ov : Grid) :
    ∀ (coords : List (ℕ × ℕ)) (img : Grid) (x y : ℕ),
      x < img.width → (∀ p ∈ coords, ¬(p.1 = x ∧ p.2 = y)) →
      (coords.foldl (blendStep ov) img).get x y = img.get x y
  | [], _, _, _, _, _ => rfl
  | p :: rest, img, x, y, hx, hall => by
    rw [List.foldl_cons]
    have hstep : (blendStep ov img p).get x y = img.get x y := by
      unfold blendStep
      split
      · rename_i hin
        exact Grid.get_set_ne img _
          (flatIndex_ne hin.1 hx (hall p (List.mem_cons_self p rest)))
      · rfl
    have hw : (blendStep ov img p).width = img.width := blendStep_width ov img p
    rw [foldl_blendStep_get_untouched ov rest (blendStep ov img p) x y
      (by rw [hw]; exact hx) (fun q hq => hall q (List.mem_cons_of_mem _ hq))]
    exact hstep

lemma mem_enumCoords {w h : ℕ} {p : ℕ × ℕ} :
    p ∈ enumCoords w h ↔ p.1 < w ∧ p.2 < h := by
  obtain ⟨x, y⟩ := p
  simp only [enumCoords, List.mem_flatMap, List.mem_map, List.mem_range,
    Prod.mk.injEq]
  constructor
  · rintro ⟨y', hy', x', hx', rfl, rfl⟩; exact ⟨hx', hy'⟩
  · rintro ⟨hx, hy⟩; exact ⟨y, hy, x, hx, rfl, rfl⟩

lemma flatIndex_lt_size {w h x y : ℕ} (hx : x < w) (hy : y < h) : y * w + x < w * h := by
  have e1 : (y + 1) * w = y * w + w := by ring
  have e2 : (y + 1) * w ≤ h * w := Nat.mul_le_mul_right w (Nat.succ_le_of_lt hy)
  have e3 : h * w = w * h := by ring
  omega

lemma Grid.get_set_eq (g : Grid) {x y : ℕ} (p : Rgba)
    (h : y * g.width + x < g.pixels.length) : (g.set x y p).get x y = p := by
  unfold Grid.get Grid.set
  simp only
  rw [List.getD_eq_getElem?_getD, List.getElem?_set_self h]
  rfl

lemma blendStep_length (ov img : Grid) (xy : ℕ × ℕ) :
    (blendStep ov img xy).pixels.length = img.pixels.length := by
  unfold blendStep Grid.set
  split
  · simp [List.length_set]
  · rfl

lemma enumCoords_nodup (w h : ℕ) : (enumCoords w h).Nodup := by
  unfold enumCoords
  rw [List.nodup_flatMap]
  constructor
  · intro y _
    refine List.Nodup.map ?_ (List.nodup_range w)
    intro a b hab
    exact congrArg Prod.fst hab
  · refine List.Pairwise.imp ?_ (List.pairwise_lt_range h)
    intro y1 y2 hlt p hp1 hp2
    simp only [List.mem_map, List.mem_range] at hp1 hp2
    obtain ⟨x1, hx1, e1⟩ := hp1
    obtain ⟨x2, hx2, e2⟩ := hp2
    have h1 : p.2 = y1 := by rw [← e1]
    have h2 : p.2 = y2 := by rw [← e2]
    omega

lemma foldl_blendStep_get_covered (ov : Grid) (coords : List (ℕ × ℕ)) :
    ∀ (img : Grid) (x y : ℕ),
      x < img.width → y < img.height →
      img.pixels.length = img.width * img.height →
      coords.Nodup → (x, y) ∈ coords →
      (coords.foldl (blendStep ov) img).get x y =
        blend_pixels (img.get x y) (ov.get x y) := by
  induction coords with
  | nil => intro img x y _ _ _ _ hm; exact absurd hm (List.not_mem_nil _)
  | cons p rest ih =>
    intro img x y hx hy hwf hnd hm
    rw [List.foldl_cons]
    by_cases hpe : p = (x, y)
    · subst hpe
      have hstep : blendStep ov img (x, y) =
          img.set x y (blend_pixels (img.get x y) (ov.get x y)) := by
        unfold blendStep
        rw [if_pos ⟨hx, hy⟩]
      rw [hstep]
      have hnotin : (x, y) ∉ rest := (List.nodup_cons.mp hnd).1
      rw [foldl_blendStep_get_untouched ov rest
        (img.set x y (blend_pixels (img.get x y) (ov.get x y))) x y hx
        (fun q hq hc => hnotin (by
          obtain ⟨q1, q2⟩ := q
          obtain ⟨hc1, hc2⟩ := hc
          simp only at hc1 hc2
          rw [hc1, hc2] at hq
          exact hq))]
      exact Grid.get_set_eq img _ (by rw [hwf]; exact flatIndex_lt_size hx hy)
    · have hm2 : (x, y) ∈ rest := by
        cases List.mem_cons.mp hm with
        | inl h => exact absurd h.symm hpe
        | inr h => exact h
      have hstep_get : (blendStep ov img p).get x y = img.get x y := by
        unfold blendStep
        split
        · rename_i hin
          refine Grid.get_set_ne img _ (flatIndex_ne hin.1 hx ?_)
          intro hc
          apply hpe
          obtain ⟨p1, p2⟩ := p
          obtain ⟨hc1, hc2⟩ := hc
          simp only at hc1 hc2
          rw [hc1, hc2]
        · rfl
      have hw := blendStep_width ov img p
      have hh := blendStep_height ov img p
      have hl := blendStep_length ov img p
      rw [ih (blendStep ov img p) x y
        (by rw [hw]; exact hx) (by rw [hh]; exact hy)
        (by rw [hl, hw, hh]; exact hwf)
        (List.nodup_cons.mp hnd).2 hm2]
      rw [hstep_get]

lemma foldl_blendStep_congr (ov1 ov2 : Grid) (coords : List (ℕ × ℕ)) :
    ∀ (img : Grid),
      (∀ p ∈ coords, p.1 < img.width → p.2 < img.height →
        ov1.get p.1 p.2 = ov2.get p.1 p.2) →
      coords.foldl (blendStep ov1) img = coords.foldl (blendStep ov2) img := by
  induction coords with
  | nil => intro img _; simp only [List.foldl_nil]
  | cons p rest ih =>
    intro img hagree
    rw [List.foldl_cons, List.foldl_cons]
    have hstep : blendStep ov1 img p = blendStep ov2 img p := by
      unfold blendStep
      by_cases hin : p.1 < img.width ∧ p.2 < img.height
      · rw [if_pos hin, if_pos hin, hagree p (List.mem_cons_self p rest) hin.1 hin.2]
      · rw [if_neg hin, if_neg hin]
    rw [hstep]
    apply ih (blendStep ov2 img p)
    intro q hq h1 h2
    have hw := blendStep_width ov2 img p
    have hh := blendStep_height ov2 img p
    rw [hw] at h1
    rw [hh] at h2
    exact hagree q (List.mem_cons_of_mem _ hq) h1 h2

lemma compositeLayer_congr_overlay (base ov ov' : Grid)
    (hw : ov.width = ov'.width) (hh : ov.height = ov'.height)
    (hagree : ∀ u v, u < base.width → v < base.height → ov.get u v = ov'.get u v) :
    compositeLayer base ov = compositeLayer base ov' := by
  unfold compositeLayer
  rw [← hw, ← hh]
  exact foldl_blendStep_congr ov ov' (enumCoords ov.width ov.height) base
    (fun p _ h1 h2 => hagree p.1 p.2 h1 h2)

/-! ## String helper lemmas -/

lemma splitCommaAux_no_comma :
    ∀ (l acc : List Char), l.contains ',' = false →
      splitCommaAux l acc = [acc.reverse ++ l]
  | [], acc, _ => by simp [splitCommaAux]
  | c :: cs, acc, h => by
    have h2 : ¬(c = ',') ∧ cs.contains ',' = false := by
      constructor
      · intro hc; subst hc; simp [List.contains_cons] at h
      · cases hx : cs.contains ',' with
        | false => rfl
        | true => rw [List.contains_cons, hx, Bool.or_true] at h; exact absurd h (by simp)
    unfold splitCommaAux
    rw [if_neg h2.1, splitCommaAux_no_comma cs (c :: acc) h2.2]
    simp

/-! ## The claims -/

/-- C1 (counterexample): the claim's formula — exact real arithmetic with a
final rounding of each channel — disagrees with `blend_pixels` already on
the specification's own example pixels: the code yields red channel `126`
(single-precision arithmetic, truncating cast) while the claimed formula
yields `round(255 * (1 - 128/255) / 1) = 127`. -/
theorem C1_counterexample :
    blend_pixels ⟨255, 0, 0, 255⟩ ⟨0, 0, 255, 128⟩ ≠
      blendSpecRound ⟨255, 0, 0, 255⟩ ⟨0, 0, 255, 128⟩ := by
  rw [show blend_pixels ⟨255, 0, 0, 255⟩ ⟨0, 0, 255, 128⟩ = ⟨126, 0, 128, 255⟩ from by decide]
  rw [show blendSpecRound ⟨255, 0, 0, 255⟩ ⟨0, 0, 255, 128⟩ = ⟨127, 0, 128, 255⟩ from by
    norm_num [blendSpecRound]; decide]
  decide

/-- C1 (amended): `blend_pixels` computes the source-over formula of the
claim with every arithmetic operation performed in IEEE-754 single
precision and the final channel and alpha values truncated toward zero by a
saturating 8-bit cast (not rounded): `a_o = O.a/255`, `a_b = B.a/255`,
`a_r = a_o + a_b*(1-a_o)`; if `a_r == 0` the result is `(0,0,0,0)`;
otherwise each color channel is `trunc((O.c*a_o + B.c*a_b*(1-a_o)) / a_r)`
and the alpha channel is `trunc(a_r * 255)`. -/
theorem C1_theorem : ∀ B O : Rgba, blend_pixels B O = blendSpecSingleTrunc B O :=
  fun _ _ => rfl

/-- C2: blending any base pixel with a fully opaque overlay pixel
(`O.a = 255`) returns the overlay pixel unchanged in all four channels. -/
theorem C2_theorem (B O : Rgba) (hO : O.Valid) (ha : O.a = 255) :
    blend_pixels B O = O := by
  obtain ⟨hr, hg, hb, hA⟩ := hO
  obtain ⟨Or, Og, Ob, Oa⟩ := O
  simp only at hr hg hb hA ha
  subst ha
  unfold blend_pixels
  simp only
  rw [show fdiv (toF32 255) (toF32 255) = toF32 1 from by decide]
  rw [show fsub (toF32 1) (toF32 1) = 0 from by decide]
  simp only [fmul_zero]
  rw [show fadd (toF32 1) 0 = toF32 1 from by decide]
  rw [if_neg (by decide : ¬ (toF32 1 = 0))]
  simp only [fmul_toF32_one hr, fmul_toF32_one hg, fmul_toF32_one hb,
    fadd_toF32_zero hr, fadd_toF32_zero hg, fadd_toF32_zero hb,
    fdiv_toF32_one hr, fdiv_toF32_one hg, fdiv_toF32_one hb,
    u8cast_toF32 hr, u8cast_toF32 hg, u8cast_toF32 hb]
  rw [show u8cast (fmul (toF32 1) (toF32 255)) = 255 from by decide]

/-- C2 (witness): a concrete instance of `C2_theorem`. -/
theorem C2_witness :
    Rgba.Valid ⟨10, 20, 30, 255⟩ ∧
    blend_pixels ⟨1, 2, 3, 4⟩ ⟨10, 20, 30, 255⟩ = ⟨10, 20, 30, 255⟩ :=
  ⟨by decide, C2_theorem ⟨1, 2, 3, 4⟩ ⟨10, 20, 30, 255⟩ (by decide) rfl⟩

/-- C3 (counterexample): blending with a fully transparent overlay does
not return the base pixel unchanged in general: single-precision rounding
makes `(c * (1/255)) / (1/255)` land just below `c`, and the truncating
cast then drops a full unit.  Concretely `blend_pixels (255,255,255,1)
(0,0,0,0) = (254,254,254,1)`. -/
theorem C3_counterexample :
    blend_pixels ⟨255, 255, 255, 1⟩ ⟨0, 0, 0, 0⟩ ≠ ⟨255, 255, 255, 1⟩ := by
  decide

/-- C3 (amended): blending a fully opaque base pixel (`B.a = 255`) with a
fully transparent overlay pixel (`O.a = 0`) returns the base pixel
unchanged in all four channels.  (For `0 < B.a < 255` the color channels
can come out one unit low, as the counterexample shows, and for `B.a = 0`
the result is transparent black.) -/
theorem C3_theorem (B O : Rgba) (hB : B.Valid) (hOa : O.a = 0) (hBa : B.a = 255) :
    blend_pixels B O = B := by
  obtain ⟨hr, hg, hb, hA⟩ := hB
  obtain ⟨Br, Bg, Bb, Ba⟩ := B
  simp only at hr hg hb hA hBa
  subst hBa
  unfold blend_pixels
  simp only [hOa]
  rw [show fdiv (toF32 0) (toF32 255) = 0 from by decide]
  rw [show fdiv (toF32 255) (toF32 255) = toF32 1 from by decide]
  rw [show fsub (toF32 1) 0 = toF32 1 from by decide]
  rw [show fmul (toF32 1) (toF32 1) = toF32 1 from by decide]
  rw [show fadd 0 (toF32 1) = toF32 1 from by decide]
  rw [if_neg (by decide : ¬ (toF32 1 = 0))]
  simp only [fmul_zero]
  simp only [fmul_toF32_one hr, fmul_toF32_one hg, fmul_toF32_one hb]
  simp only [fadd_zero_toF32 hr, fadd_zero_toF32 hg, fadd_zero_toF32 hb]
  simp only [fdiv_toF32_one hr, fdiv_toF32_one hg, fdiv_toF32_one hb,
    u8cast_toF32 hr, u8cast_toF32 hg, u8cast_toF32 hb]
  rw [show u8cast (fmul (toF32 1) (toF32 255)) = 255 from by decide]

/-- C3 (witness): a concrete instance of `C3_theorem`. -/
theorem C3_witness :
    Rgba.Valid ⟨7, 8, 9, 255⟩ ∧
    blend_pixels ⟨7, 8, 9, 255⟩ ⟨1, 2, 3, 0⟩ = ⟨7, 8, 9, 255⟩ :=
  ⟨by decide, C3_theorem ⟨7, 8, 9, 255⟩ ⟨1, 2, 3, 0⟩ (by decide) rfl rfl⟩

/-- C4: the compositing loop blends exactly the coordinates that lie in
both grids, and overlay pixels outside the base grid's extent have no
effect: the dimensions of the base grid never change, every base
coordinate not covered by the overlay keeps its pixel unchanged, every
base coordinate covered by the overlay holds exactly the blend of the
original base pixel with the overlay pixel, and two overlays of equal
dimensions that agree on all coordinates inside the base grid's extent
composite to the very same grid — so the out-of-base overlay pixels are
skipped without error, without resizing, and without affecting any base
pixel. -/
theorem C4_theorem (base ov ov' : Grid) (x y : ℕ)
    (hwf : base.pixels.length = base.width * base.height)
    (hx : x < base.width) (hy : y < base.height)
    (hw' : ov.width = ov'.width) (hh' : ov.height = ov'.height)
    (hagree : ∀ u v, u < base.width → v < base.height → ov.get u v = ov'.get u v) :
    (compositeLayer base ov).width = base.width ∧
    (compositeLayer base ov).height = base.height ∧
    (ov.width ≤ x ∨ ov.height ≤ y → (compositeLayer base ov).get x y = base.get x y) ∧
    (x < ov.width → y < ov.height →
      (compositeLayer base ov).get x y = blend_pixels (base.get x y) (ov.get x y)) ∧
    compositeLayer base ov = compositeLayer base ov' := by
  refine ⟨(foldl_blendStep_dims ov _ base).1, (foldl_blendStep_dims ov _ base).2, ?_, ?_, ?_⟩
  · intro h
    apply foldl_blendStep_get_untouched ov _ base x y hx
    intro p hp
    have := mem_enumCoords.mp hp
    omega
  · intro hxo hyo
    exact foldl_blendStep_get_covered ov _ base x y hx hy hwf
      (enumCoords_nodup _ _) (mem_enumCoords.mpr ⟨hxo, hyo⟩)
  · exact compositeLayer_congr_overlay base ov ov' hw' hh' hagree

/-- C4 (witness): concrete instances of `C4_theorem` — a 1×1 overlay on a
2×1 base leaves the uncovered pixel `(1, 0)` untouched; a 2×2 overlay on
the same base blends the covered pixel `(0, 0)` from the original base
pixel, and changing that overlay only in its out-of-base row `y = 1`
leaves the composited grid identical. -/
theorem C4_witness :
    ((compositeLayer ⟨2, 1, [⟨1, 2, 3, 4⟩, ⟨5, 6, 7, 8⟩]⟩ ⟨1, 1, [⟨9, 9, 9, 9⟩]⟩).get 1 0 =
      (⟨2, 1, [⟨1, 2, 3, 4⟩, ⟨5, 6, 7, 8⟩]⟩ : Grid).get 1 0) ∧
    ((compositeLayer ⟨2, 1, [⟨1, 2, 3, 4⟩, ⟨5, 6, 7, 8⟩]⟩
        ⟨2, 2, [⟨9, 9, 9, 9⟩, ⟨8, 8, 8, 8⟩, ⟨7, 7, 7, 7⟩, ⟨6, 6, 6, 6⟩]⟩).get 0 0 =
      blend_pixels ((⟨2, 1, [⟨1, 2, 3, 4⟩, ⟨5, 6, 7, 8⟩]⟩ : Grid).get 0 0)
        ((⟨2, 2, [⟨9, 9, 9, 9⟩, ⟨8, 8, 8, 8⟩, ⟨7, 7, 7, 7⟩, ⟨6, 6, 6, 6⟩]⟩ : Grid).get 0 0)) ∧
    compositeLayer ⟨2, 1, [⟨1, 2, 3, 4⟩, ⟨5, 6, 7, 8⟩]⟩
        ⟨2, 2, [⟨9, 9, 9, 9⟩, ⟨8, 8, 8, 8⟩, ⟨7, 7, 7, 7⟩, ⟨6, 6, 6, 6⟩]⟩ =
      compositeLayer ⟨2, 1, [⟨1, 2, 3, 4⟩, ⟨5, 6, 7, 8⟩]⟩
        ⟨2, 2, [⟨9, 9, 9, 9⟩, ⟨8, 8, 8, 8⟩, ⟨0, 0, 0, 0⟩, ⟨1, 1, 1, 1⟩]⟩ := by
  refine ⟨?_, ?_, ?_⟩
  · exact (C4_theorem ⟨2, 1, [⟨1, 2, 3, 4⟩, ⟨5, 6, 7, 8⟩]⟩ ⟨1, 1, [⟨9, 9, 9, 9⟩]⟩
      ⟨1, 1, [⟨9, 9, 9, 9⟩]⟩ 1 0 (by decide) (by decide) (by decide) rfl rfl
      (fun _ _ _ _ => rfl)).2.2.1 (Or.inl (by decide))
  · exact (C4_theorem ⟨2, 1, [⟨1, 2, 3, 4⟩, ⟨5, 6, 7, 8⟩]⟩
      ⟨2, 2, [⟨9, 9, 9, 9⟩, ⟨8, 8, 8, 8⟩, ⟨7, 7, 7, 7⟩, ⟨6, 6, 6, 6⟩]⟩
      ⟨2, 2, [⟨9, 9, 9, 9⟩, ⟨8, 8, 8, 8⟩, ⟨0, 0, 0, 0⟩, ⟨1, 1, 1, 1⟩]⟩ 0 0
      (by decide) (by decide) (by decide) rfl rfl
      (by intro u v hu hv; interval_cases v; interval_cases u <;> rfl)).2.2.2.1
      (by decide) (by decide)
  · exact (C4_theorem ⟨2, 1, [⟨1, 2, 3, 4⟩, ⟨5, 6, 7, 8⟩]⟩
      ⟨2, 2, [⟨9, 9, 9, 9⟩, ⟨8, 8, 8, 8⟩, ⟨7, 7, 7, 7⟩, ⟨6, 6, 6, 6⟩]⟩
      ⟨2, 2, [⟨9, 9, 9, 9⟩, ⟨8, 8, 8, 8⟩, ⟨0, 0, 0, 0⟩, ⟨1, 1, 1, 1⟩]⟩ 0 0
      (by decide) (by decide) (by decide) rfl rfl
      (by intro u v hu hv; interval_cases v; interval_cases u <;> rfl)).2.2.2.2

/-- C5: `composite_multiple_layers` with an empty layer sequence hands the
decoded base grid, unchanged, to the PNG encoder: the grid result of the
pipeline is exactly the decoded base, and the whole call is exactly the
re-encoding of that grid. -/
theorem C5_theorem (ext : Externs) (bytes : List ℕ) (base : Grid)
    (h : ext.decodeImage bytes = .ok base) :
    compositeMultipleLayersGrid ext bytes [] = .ok base ∧
    composite_multiple_layers ext bytes [] = encodeAndWrap ext base := by
  have h1 : compositeMultipleLayersGrid ext bytes [] = .ok base := by
    unfold compositeMultipleLayersGrid
    rw [h]
    rfl
  refine ⟨h1, ?_⟩
  unfold composite_multiple_layers
  rw [h1]
  rfl

/-- C5 (witness): a concrete instance of `C5_theorem`. -/
theorem C5_witness :
    toyExterns.decodeImage [1, 1, 5, 6, 7, 8] = .ok ⟨1, 1, [⟨5, 6, 7, 8⟩]⟩ ∧
    compositeMultipleLayersGrid toyExterns [1, 1, 5, 6, 7, 8] [] = .ok ⟨1, 1, [⟨5, 6, 7, 8⟩]⟩ :=
  ⟨rfl, (C5_theorem toyExterns [1, 1, 5, 6, 7, 8] ⟨1, 1, [⟨5, 6, 7, 8⟩]⟩ rfl).1⟩

/-- C6: blending is not commutative — half-opaque red over half-opaque
blue differs from half-opaque blue over half-opaque red — and consequently
multi-layer compositing is order-sensitive: swapping two overlapping
non-opaque layers of different colors changes the result grid. -/
theorem C6_theorem :
    blend_pixels ⟨255, 0, 0, 128⟩ ⟨0, 0, 255, 128⟩ ≠
      blend_pixels ⟨0, 0, 255, 128⟩ ⟨255, 0, 0, 128⟩ ∧
    compositeMultipleLayersGrid toyExterns [1, 1, 0, 0, 0, 0] [some layerRed, some layerBlue] ≠
      compositeMultipleLayersGrid toyExterns [1, 1, 0, 0, 0, 0] [some layerBlue, some layerRed] := by
  constructor
  · decide
  · have e1 : compositeMultipleLayersGrid toyExterns [1, 1, 0, 0, 0, 0]
        [some layerRed, some layerBlue] = .ok ⟨1, 1, [⟨84, 0, 170, 191⟩]⟩ := rfl
    have e2 : compositeMultipleLayersGrid toyExterns [1, 1, 0, 0, 0, 0]
        [some layerBlue, some layerRed] = .ok ⟨1, 1, [⟨170, 0, 84, 191⟩]⟩ := rfl
    rw [e1, e2]
    simp

/-- C7: `generate_preview` resamples the base exactly when its decoded
dimensions differ from the target, independently resamples the overlay
exactly when its decoded dimensions differ from the target
(`resizeIfNeeded` is that policy), both grids have the target dimensions
before blending (given that the external resampler honours its target),
a base already at the target size is passed to the blend loop as decoded,
a differently-sized overlay is passed through the resampler, and the
compositing loop is invoked exactly once, on those two grids. -/
theorem C7_theorem (ext : Externs) (bb ob : List ℕ) (w h : ℕ) (base0 ov0 : Grid)
    (hdB : ext.decodeImage bb = .ok base0) (hdO : ext.decodeImage ob = .ok ov0)
    (hres : ∀ g, (ext.resize g w h).width = w ∧ (ext.resize g w h).height = h) :
    generatePreviewGrid ext bb ob w h =
      .ok (compositeLayer (resizeIfNeeded ext base0 w h) (resizeIfNeeded ext ov0 w h))
    ∧ (resizeIfNeeded ext base0 w h).width = w
    ∧ (resizeIfNeeded ext base0 w h).height = h
    ∧ (resizeIfNeeded ext ov0 w h).width = w
    ∧ (resizeIfNeeded ext ov0 w h).height = h
    ∧ (base0.width = w → base0.height = h → resizeIfNeeded ext base0 w h = base0)
    ∧ ((ov0.width ≠ w ∨ ov0.height ≠ h) →
        resizeIfNeeded ext ov0 w h = ext.resize ov0 w h) := by
  have dims : ∀ g : Grid, (resizeIfNeeded ext g w h).width = w ∧
      (resizeIfNeeded ext g w h).height = h := by
    intro g
    unfold resizeIfNeeded
    split
    · exact hres g
    · rename_i hc
      push_neg at hc
      exact ⟨hc.1, hc.2⟩
  refine ⟨?_, (dims base0).1, (dims base0).2, (dims ov0).1, (dims ov0).2, ?_, ?_⟩
  · unfold generatePreviewGrid resizeIfNeeded
    rw [hdB, hdO]
    rfl
  · intro h1 h2
    unfold resizeIfNeeded
    rw [if_neg (by omega)]
  · intro h1
    unfold resizeIfNeeded
    rw [if_pos h1]

/-- C7 (witness): a concrete instance of `C7_theorem` — target 1×1 equals
the base's decoded size, so the base goes through as decoded, while the
2×1 overlay goes through the resampler. -/
theorem C7_witness :
    generatePreviewGrid toyExterns [1, 1, 5, 6, 7, 8] [2, 1, 1, 2, 3, 4, 5, 6, 7, 8] 1 1
      = .ok (compositeLayer (resizeIfNeeded toyExterns ⟨1, 1, [⟨5, 6, 7, 8⟩]⟩ 1 1)
          (resizeIfNeeded toyExterns ⟨2, 1, [⟨1, 2, 3, 4⟩, ⟨5, 6, 7, 8⟩]⟩ 1 1))
    ∧ resizeIfNeeded toyExterns ⟨1, 1, [⟨5, 6, 7, 8⟩]⟩ 1 1 = ⟨1, 1, [⟨5, 6, 7, 8⟩]⟩
    ∧ resizeIfNeeded toyExterns ⟨2, 1, [⟨1, 2, 3, 4⟩, ⟨5, 6, 7, 8⟩]⟩ 1 1
        = toyExterns.resize ⟨2, 1, [⟨1, 2, 3, 4⟩, ⟨5, 6, 7, 8⟩]⟩ 1 1 := by
  have h := C7_theorem toyExterns [1, 1, 5, 6, 7, 8] [2, 1, 1, 2, 3, 4, 5, 6, 7, 8] 1 1
    ⟨1, 1, [⟨5, 6, 7, 8⟩]⟩ ⟨2, 1, [⟨1, 2, 3, 4⟩, ⟨5, 6, 7, 8⟩]⟩ rfl rfl
    (fun _ => ⟨rfl, rfl⟩)
  exact ⟨h.1, h.2.2.2.2.2.1 rfl rfl, h.2.2.2.2.2.2 (Or.inl (by decide))⟩

/-- C8 (counterexample): the error reported for a failed layer decode does
not say which layer index failed — the very same error value is produced
whether the bad layer is at index 0 or at index 1, so no information about
the index is in the result. -/
theorem C8_counterexample :
    composite_multiple_layers toyExterns [1, 1, 0, 0, 0, 0] [some badLayer]
      = .error "Failed to decode base64: invalid symbol" ∧
    composite_multiple_layers toyExterns [1, 1, 0, 0, 0, 0] [some layerRed, some badLayer]
      = .error "Failed to decode base64: invalid symbol" ∧
    composite_multiple_layers toyExterns [1, 1, 0, 0, 0, 0] [some badLayer]
      = composite_multiple_layers toyExterns [1, 1, 0, 0, 0, 0] [some layerRed, some badLayer] :=
  ⟨rfl, rfl, rfl⟩

/-- C8 (amended): a decode failure (transport or image) for any single
layer aborts the entire `composite_multiple_layers` call immediately with
that failure's error — later layers are not processed, nothing is encoded,
and no partial result is returned; the error names the failing stage and
carries the decoder's message, but it does not identify the layer index. -/
theorem C8_theorem (ext : Externs) (bytes : List ℕ) (base acc : Grid)
    (pre post : List (Option String)) (bad : Option String) (e : String)
    (hdec : ext.decodeImage bytes = .ok base)
    (hpre : pre.foldlM (processLayer ext) base = .ok acc)
    (hbad : processLayer ext acc bad = .error e) :
    composite_multiple_layers ext bytes (pre ++ bad :: post) = .error e := by
  unfold composite_multiple_layers compositeMultipleLayersGrid
  rw [hdec]
  show ((pre ++ bad :: post).foldlM (processLayer ext) base >>= encodeAndWrap ext) = .error e
  rw [List.foldlM_append, hpre]
  show ((bad :: post).foldlM (processLayer ext) acc >>= encodeAndWrap ext) = .error e
  rw [List.foldlM_cons, hbad]
  rfl

/-- C8 (witness): a concrete instance of `C8_theorem` — the bad layer sits
before a further (valid) layer, and the call is the bare error. -/
theorem C8_witness :
    composite_multiple_layers toyExterns [1, 1, 0, 0, 0, 0]
      ([] ++ some badLayer :: [some layerBlue])
      = .error "Failed to decode base64: invalid symbol" :=
  C8_theorem toyExterns [1, 1, 0, 0, 0, 0] ⟨1, 1, [⟨0, 0, 0, 0⟩]⟩ ⟨1, 1, [⟨0, 0, 0, 0⟩]⟩
    [] [some layerBlue] (some badLayer) "Failed to decode base64: invalid symbol"
    rfl rfl rfl

/-- C9 (counterexample): for a data URL whose payload contains a further
comma, the payload handed to the base64 decoder is not "the part after the
first comma": the source takes `split(",").nth(1)`, i.e. only the text
between the first and the second comma. -/
theorem C9_counterexample :
    extractBase64Content dataUrlTwoCommas ≠ .ok (afterFirstComma dataUrlTwoCommas) := by
  have e1 : extractBase64Content dataUrlTwoCommas = .ok "QUJD" := rfl
  have e2 : afterFirstComma dataUrlTwoCommas = "QUJD,RUZH" := rfl
  rw [e1, e2]
  simp

/-- C9 (amended): a layer string matching the `data:image` literal prefix
has as its payload the second element of the comma-split (the text between
the first and the second comma — which is everything after the first comma
exactly when no second comma exists); a prefixed string without any comma
aborts with the invalid-data-URL error; a non-prefixed string is passed to
the base64 decoder whole; and a payload rejected by the base64 decoder
aborts the layer with the transport-decode error. -/
theorem C9_theorem :
    (∀ s payload : String, isDataUrl s = true → (splitComma s)[1]? = some payload →
       extractBase64Content s = .ok payload)
  ∧ (∀ s : String, isDataUrl s = true → s.data.contains ',' = false →
       extractBase64Content s = .error "Invalid data URL format")
  ∧ (∀ s : String, isDataUrl s = false → extractBase64Content s = .ok s)
  ∧ (∀ (ext : Externs) (img : Grid) (s e : String), isDataUrl s = false →
       ext.base64Decode s = .error e →
       processLayer ext img (some s) = .error ("Failed to decode base64: " ++ e)) := by
  refine ⟨?_, ?_, ?_, ?_⟩
  · intro s payload hurl hsplit
    unfold extractBase64Content
    rw [hurl, if_pos rfl, hsplit]
  · intro s hurl hnc
    unfold extractBase64Content
    rw [hurl, if_pos rfl]
    have hs : splitComma s = [String.mk s.data] := by
      unfold splitComma
      rw [splitCommaAux_no_comma s.data [] hnc]
      rfl
    rw [hs]
    rfl
  · intro s hurl
    unfold extractBase64Content
    rw [hurl]
    rfl
  · intro ext img s e hurl hdec
    simp only [processLayer, extractBase64Content, hurl, Bool.false_eq_true, if_false,
      Except.mapError, bind, Except.bind, hdec]

/-- C9 (witness): concrete instances of all four parts of `C9_theorem`. -/
theorem C9_witness :
    extractBase64Content dataUrlTwoCommas = .ok "QUJD"
  ∧ extractBase64Content "data:image" = .error "Invalid data URL format"
  ∧ extractBase64Content "rawpayload" = .ok "rawpayload"
  ∧ processLayer toyExterns ⟨1, 1, [⟨0, 0, 0, 0⟩]⟩ (some badLayer)
      = .error ("Failed to decode base64: " ++ "invalid symbol") :=
  ⟨C9_theorem.1 dataUrlTwoCommas "QUJD" rfl rfl,
   C9_theorem.2.1 "data:image" rfl rfl,
   C9_theorem.2.2.1 "rawpayload" rfl,
   C9_theorem.2.2.2 toyExterns ⟨1, 1, [⟨0, 0, 0, 0⟩]⟩ badLayer "invalid symbol" rfl rfl⟩

/-- C10: `composite_images` and the single-layer case of
`composite_multiple_layers` agree — for every base byte buffer and every
raw (non-data-URL) base64 layer string whose decoding is the overlay byte
buffer, the two entry points return the identical result, on every branch
(decode failures included). -/
theorem C10_theorem (ext : Externs) (bb ob : List ℕ) (s : String)
    (hraw : isDataUrl s = false) (hdec : ext.base64Decode s = .ok ob) :
    composite_images ext bb ob = composite_multiple_layers ext bb [some s] := by
  unfold composite_images composite_multiple_layers compositeMultipleLayersGrid
  cases hB : ext.decodeImage bb with
  | error e => rfl
  | ok base =>
    simp only [Except.mapError, bind, Except.bind, List.foldlM_cons, List.foldlM_nil,
      processLayer, extractBase64Content, hraw, hdec, Bool.false_eq_true, if_false]
    cases hO : ext.decodeImage ob with
    | error e => rfl
    | ok ov => rfl

/-- C10 (witness): a concrete instance of `C10_theorem`. -/
theorem C10_witness :
    composite_images toyExterns [1, 1, 0, 0, 0, 0] [1, 1, 255, 0, 0, 128]
      = composite_multiple_layers toyExterns [1, 1, 0, 0, 0, 0] [some layerRed] :=
  C10_theorem toyExterns [1, 1, 0, 0, 0, 0] [1, 1, 255, 0, 0, 128] layerRed rfl rfl
